import Mathlib

/-!
Verification of `src/lhco_converter.py` (LHCO → CSV/DOCX converter).

The Python program is embedded shallowly:
* Python dicts become ordered association lists (`Dict`) with Python's
  insertion semantics (`dictInsert`: updating an existing key keeps its
  position, a new key is appended).
* Python `None` is `Option.none` (`PyVal := Option String`; every value in
  this program is a string token or `None`).
* `str.split()` (no argument) becomes `pySplit`, `str.isdigit` becomes
  `pyIsDigit`.
* Fallible code (dict lookups that can raise `KeyError`, `csv.DictWriter`'s
  `ValueError` on extra fields) returns `Except String _`.
* The writers return a result structure recording the file content written
  (if any), the lines printed to standard output, and an uncaught exception
  (if any); `main` returns a `RunResult` with the process exit code, the
  stderr output, the stdout output, and whether parsing/writing happened.
-/

namespace LhcoConv

/-- A Python value in this program: a string, or `None` (`none`). -/
abbrev PyVal := Option String

/-- A Python dict with string keys, as an ordered association list
(insertion order is observable in Python and in the CSV/DOCX output). -/
abbrev Dict := List (String × PyVal)

/-- `k in d` for a Python dict. -/
def dictHasKey (d : Dict) (k : String) : Bool :=
  d.any (fun p => p.1 == k)

/-- `d[k]` with a default for a missing key (callers model `KeyError`
explicitly by checking `dictHasKey` first where Python would raise). -/
def dictGetD (d : Dict) (k : String) (dflt : PyVal) : PyVal :=
  match d.find? (fun p => p.1 == k) with
  | some p => p.2
  | none => dflt

/-- `d[k] = v`: Python dicts update an existing key in place (keeping its
position) and append a new key at the end. -/
def dictInsert (d : Dict) (k : String) (v : PyVal) : Dict :=
  if dictHasKey d k then
    d.map (fun p => if p.1 == k then (k, v) else p)
  else d ++ [(k, v)]

/-- `list(d.keys())` in insertion order. -/
def dictKeys (d : Dict) : List String := d.map (·.1)

/-- Accumulator pass for `pySplit`: `acc` holds the characters of the word
in progress, in reverse. -/
def pySplitAux : List Char → List Char → List String
  | [], acc => if acc = [] then [] else [String.mk acc.reverse]
  | c :: cs, acc =>
    if c.isWhitespace then
      (if acc = [] then [] else [String.mk acc.reverse]) ++ pySplitAux cs []
    else pySplitAux cs (c :: acc)

/-- Python `raw.split()`: split on whitespace runs, no empty tokens. -/
def pySplit (s : String) : List String :=
  pySplitAux s.data []

/-- Python `s.isdigit()` (ASCII fragment): non-empty and all decimal digits. -/
def pyIsDigit (s : String) : Bool :=
  s ≠ "" && s.data.all (fun c => c.isDigit)

/-- Header-line test on a token list (src line 27):
`len(tokens) == 3 and tokens[0].isdigit()`. -/
def isHeaderToks (tokens : List String) : Bool :=
  tokens.length == 3 && pyIsDigit (tokens.getD 0 "")

/-- The record built for an object line (src lines 32–43): the ten keys in
source order, the nine positional fields taken from the first nine tokens. -/
def mkObjRec (eventId : Option String) (tokens : List String) : Dict :=
  [("event", eventId),
   ("idx", some (tokens.getD 0 "")),
   ("typ", some (tokens.getD 1 "")),
   ("eta", some (tokens.getD 2 "")),
   ("phi", some (tokens.getD 3 "")),
   ("pt", some (tokens.getD 4 "")),
   ("jmas", some (tokens.getD 5 "")),
   ("ntrk", some (tokens.getD 6 "")),
   ("btag", some (tokens.getD 7 "")),
   ("hadem", some (tokens.getD 8 ""))]

/-- The per-line loop of `parse_lhco` (src lines 20–44), with the current
event id threaded explicitly. -/
def parse_lhco_aux (eventId : Option String) : List String → List Dict
  | [] => []
  | raw :: rest =>
    let tokens := pySplit raw
    if tokens.isEmpty then parse_lhco_aux eventId rest
    else if isHeaderToks tokens then parse_lhco_aux (some (tokens.getD 1 "")) rest
    else if 9 ≤ tokens.length then mkObjRec eventId tokens :: parse_lhco_aux eventId rest
    else parse_lhco_aux eventId rest

/-- `parse_lhco` (src lines 13–45): the file is given as its list of lines;
the current event id starts as `None`. -/
def parse_lhco (lines : List String) : List Dict :=
  parse_lhco_aux none lines

/-- The event-id update a single line performs (the header branch of
`parse_lhco`, src lines 27–29): a valid header sets the id to its second
token, every other line leaves it unchanged. -/
def updEvent (eventId : Option String) (raw : String) : Option String :=
  let tokens := pySplit raw
  if isHeaderToks tokens then some (tokens.getD 1 "") else eventId

/-- A raw line is a valid header line. -/
def isHeaderLine (raw : String) : Bool := isHeaderToks (pySplit raw)

/-- The column-projection of one record (src lines 58–61):
`filtered = {'event': rec['event']}` then insert each requested column that
is a key of `rec`. -/
def projectCols (rec : Dict) (cols : List String) : Dict :=
  cols.foldl
    (fun d c => if dictHasKey rec c then dictInsert d c (dictGetD rec c none) else d)
    [("event", dictGetD rec "event" none)]

/-- The particle test for one record (src line 55,
`particle is not None and rec['typ'] != str(particle)`): `.ok true` keeps
the record, `.ok false` skips it, `.error` is Python's `KeyError` when the
record has no `typ` key. -/
def typCheckRec (rec : Dict) (particle : Option String) : Except String Bool :=
  match particle with
  | none => .ok true
  | some p =>
    if dictHasKey rec "typ" then .ok (dictGetD rec "typ" none == some p)
    else .error "KeyError: typ"

/-- The per-record projection step (src lines 57–64): with a truthy column
list, build the reduced record (`rec['event']` can raise `KeyError`);
otherwise pass the record through (`rec.copy()`). -/
def projectRec (rec : Dict) (columns : Option (List String)) : Except String Dict :=
  match columns with
  | some cols =>
    if cols.isEmpty then .ok rec
    else if dictHasKey rec "event" then .ok (projectCols rec cols)
    else .error "KeyError: event"
  | none => .ok rec

/-- `filter_records` (src lines 48–65).  `particle = none` models the Python
default `None`; `columns = none` models `None` and `some []` an empty list
(`if columns:` is false for both).  Dict accesses that can raise `KeyError`
(`rec['typ']`, `rec['event']`) are modelled as `Except.error`. -/
def filter_records (records : List Dict) (particle : Option String)
    (columns : Option (List String)) : Except String (List Dict) :=
  match records with
  | [] => .ok []
  | rec :: rest =>
    match typCheckRec rec particle with
    | .error e => .error e
    | .ok keep =>
      if keep then
        match projectRec rec columns with
        | .error e => .error e
        | .ok r =>
          match filter_records rest particle columns with
          | .error e => .error e
          | .ok out => .ok (r :: out)
      else filter_records rest particle columns

/-- Whether the particle filter keeps a record (`none`: no filter). -/
def keepByParticle (r : Dict) (particle : Option String) : Bool :=
  match particle with
  | none => true
  | some p => dictGetD r "typ" none == some p

/-! ### CSV writing (src lines 68–76, Python `csv` module semantics)

`csv.DictWriter` with the default `excel` dialect: delimiter `,`,
quote character `"`, `QUOTE_MINIMAL`, line terminator CRLF.  A field is
quoted iff it contains the delimiter, the quote character, CR or LF
(with inner quote characters doubled); additionally a row consisting of a
single empty field is written as `""` so that it is not read back as an
empty row.  `None` values are written as the empty string. -/

/-- The CSV quote character `"`. -/
def quoteChar : Char := Char.ofNat 34

/-- QUOTE_MINIMAL: quote iff the field contains `,`, `"`, CR or LF. -/
def needsQuote (s : List Char) : Bool :=
  s.any (fun c => c == ',' || c == quoteChar || c == '\r' || c == '\n')

/-- Double every quote character in a field body. -/
def doubleQuotes : List Char → List Char
  | [] => []
  | c :: cs =>
    if c = quoteChar then quoteChar :: quoteChar :: doubleQuotes cs
    else c :: doubleQuotes cs

/-- Encode a single CSV field (QUOTE_MINIMAL). -/
def encodeField (s : List Char) : List Char :=
  if needsQuote s then quoteChar :: (doubleQuotes s ++ [quoteChar]) else s

/-- Join the encoded fields of one row with the `,` delimiter. -/
def joinFieldsChars : List String → List Char
  | [] => []
  | f :: fs =>
    match fs with
    | [] => encodeField f.data
    | _ :: _ => encodeField f.data ++ ',' :: joinFieldsChars fs

/-- Encode one CSV row, CRLF-terminated.  The Python `csv` writer quotes a
row that is a single empty field (writing `""`), so that reading it back
does not yield an empty row. -/
def encodeRowChars (fields : List String) : List Char :=
  if fields = [""] then [quoteChar, quoteChar, '\r', '\n']
  else joinFieldsChars fields ++ ['\r', '\n']

/-- Encode a whole CSV file from its rows. -/
def encodeRows : List (List String) → List Char
  | [] => []
  | r :: rs => encodeRowChars r ++ encodeRows rs

/-- The string the CSV writer puts in a cell: `None` becomes the empty
string, a string is written as is. -/
def csvStr (v : PyVal) : String := v.getD ""

/-- The data row `csv.DictWriter` writes for one record: the values in
fieldname order (`restval` `''` for a missing key). -/
def csvRowOf (fieldnames : List String) (r : Dict) : List String :=
  fieldnames.map (fun k => csvStr (dictGetD r k none))

/-- The full CSV file content: header row then one data row per record. -/
def csvContent (fieldnames : List String) (records : List Dict) : List Char :=
  encodeRows (fieldnames :: records.map (csvRowOf fieldnames))

/-- Result of one writer call: file content written (if a file was written),
lines printed to standard output, and an uncaught exception (if any). -/
structure CsvResult where
  file : Option (List Char)
  stdout : List String
  err : Option String
deriving DecidableEq

/-- `write_csv` (src lines 68–76).  An empty record list prints a message
and writes nothing.  Otherwise the fieldnames are the first record's keys;
`csv.DictWriter` raises `ValueError` at the first record holding a key not
among the fieldnames (having already written the header and the preceding
rows). -/
def write_csv (records : List Dict) (outPath : String) : CsvResult :=
  if records = [] then ⟨none, ["No records to write."], none⟩
  else
    let fieldnames := dictKeys (records.headD [])
    let good := records.takeWhile (fun r => r.all (fun p => fieldnames.contains p.1))
    if good.length = records.length then
      ⟨some (csvContent fieldnames records), ["CSV written to " ++ outPath], none⟩
    else
      ⟨some (csvContent fieldnames good), [], some "ValueError: dict contains fields not in fieldnames"⟩

/-! ### CSV reading

Modelled from the spec: the repository has no CSV reader; the spec's
round-trip property ("writing then parsing-back-as-CSV ...") requires one.
This is a standard RFC-4180-style reader matching Python's `csv.reader`
with the `excel` dialect: fields separated by `,`, rows terminated by CRLF
(a bare LF is also accepted), quoted fields may contain separators and
doubled quote characters, and a blank line is an empty row (no fields). -/

/-- Reader state within a row: outside quotes, inside a quoted section, or
just past a quote character inside a quoted section (which either doubles —
a literal quote — or closes the quoted section). -/
inductive CsvMode | plain | quoted | closing
deriving DecidableEq

/-- One row, character by character.  Arguments: remaining input, reader
state, characters of the current field so far.  Returns the row's fields
and the input after the row terminator. -/
def rowAux : List Char → CsvMode → List Char → (List String × List Char)
  | [], _, acc => ([String.mk acc], [])
  | c :: rest, CsvMode.quoted, acc =>
    if c = quoteChar then rowAux rest CsvMode.closing acc
    else rowAux rest CsvMode.quoted (acc ++ [c])
  | c :: rest, CsvMode.closing, acc =>
    if c = quoteChar then rowAux rest CsvMode.quoted (acc ++ [quoteChar])
    else if c = ',' then
      let q := rowAux rest CsvMode.plain []
      (String.mk acc :: q.1, q.2)
    else if c = '\r' then
      match rest with
      | c2 :: rest2 =>
        if c2 = '\n' then ([String.mk acc], rest2) else ([String.mk acc], c :: rest)
      | [] => ([String.mk acc], [c])
    else if c = '\n' then ([String.mk acc], rest)
    else rowAux rest CsvMode.plain (acc ++ [c])
  | c :: rest, CsvMode.plain, acc =>
    if c = ',' then
      let q := rowAux rest CsvMode.plain []
      (String.mk acc :: q.1, q.2)
    else if c = '\r' then
      match rest with
      | c2 :: rest2 =>
        if c2 = '\n' then ([String.mk acc], rest2) else ([String.mk acc], c :: rest)
      | [] => ([String.mk acc], [c])
    else if c = '\n' then ([String.mk acc], rest)
    else if c = quoteChar then rowAux rest CsvMode.quoted acc
    else rowAux rest CsvMode.plain (acc ++ [c])

/-- Parse one CSV row from the start of the input. -/
def parseRow (input : List Char) : List String × List Char :=
  rowAux input CsvMode.plain []

/-- Parse the rows of a CSV file; the fuel bounds the number of rows and
only ensures termination (one unit is spent per row, and a row is never
shorter than one character, so `input.length + 1` is always enough). -/
def parseRowsF : Nat → List Char → List (List String)
  | 0, _ => []
  | _ + 1, [] => []
  | n + 1, c :: rest =>
    if c = '\r' ∧ rest.head? = some '\n' then [] :: parseRowsF n rest.tail
    else if c = '\n' then [] :: parseRowsF n rest
    else
      let p := parseRow (c :: rest)
      p.1 :: parseRowsF n p.2

/-- Parse a CSV file into its rows. -/
def parseRows (input : List Char) : List (List String) :=
  parseRowsF (input.length + 1) input

/-- A small concrete record sequence (homogeneous, with a `None` event and
a value containing the delimiter) used to instantiate the CSV round trip. -/
def recsW : List Dict :=
  [[("event", some "7"), ("pt", some "1")],
   [("event", none), ("pt", some "a,b")]]

/-! ### DOCX writing (src lines 79–98) -/

/-- The document `write_docx` builds: one heading and one table whose first
row is the column headers. -/
structure DocxDoc where
  heading : String
  table : List (List String)
deriving DecidableEq

/-- Result of a `write_docx` call. -/
structure DocxResult where
  file : Option DocxDoc
  stdout : List String
  err : Option String
deriving DecidableEq

/-- Python `str(v)` as used on cell values: `str(None)` is `"None"`. -/
def docxStr (v : PyVal) : String := v.getD "None"

/-- `write_docx` (src lines 79–98).  The availability of `python-docx`
(module-level `DOCX_AVAILABLE`, src lines 6–10) is passed explicitly.
Unavailable: print an error to standard output and return (no write, no
exception).  Empty records: print a message and return.  Otherwise build the
document; `rec[col]` raises `KeyError` when a record misses a column
(`doc.save` is then never reached, so no file is written). -/
def write_docx (docxAvailable : Bool) (records : List Dict) (outPath : String) : DocxResult :=
  if docxAvailable = false then
    ⟨none, ["Error: python-docx is not installed. Cannot write DOCX."], none⟩
  else if records = [] then ⟨none, ["No records to write."], none⟩
  else
    let cols := dictKeys (records.headD [])
    if records.all (fun r => cols.all (fun c => dictHasKey r c)) then
      ⟨some ⟨"LHCO Data", cols :: records.map (fun r => cols.map (fun c => docxStr (dictGetD r c none)))⟩,
       ["DOCX written to " ++ outPath], none⟩
    else ⟨none, [], some "KeyError"⟩

/-! ### The CLI entry point (src lines 101–126) -/

/-- `--format {csv,docx}`. -/
inductive OutFormat | csv | docx
deriving DecidableEq

/-- The parsed CLI arguments. -/
structure Args where
  input : String
  output : String
  format : OutFormat
  particle : Option String
  columns : Option (List String)

/-- The environment `main` runs in: whether the input path exists, the
input file's lines, and whether `python-docx` is importable. -/
structure Env where
  inputExists : Bool
  inputLines : List String
  docxAvailable : Bool

/-- Observable outcome of one run of the program. -/
structure RunResult where
  exitCode : Nat
  stderrOut : List String
  stdout : List String
  fileWritten : Bool
  parsedInput : Bool
deriving DecidableEq

/-- `main` (src lines 101–126).

When the input path does not exist the source runs
`print(..., file=sys.stderr)` — but `sys` is never imported, so this line
raises `NameError: name 'sys' is not defined`.  The exception is uncaught:
CPython prints the traceback to stderr and exits with status 1, and neither
parsing nor writing has happened.  (The intended `sys.exit(1)` on line 114
is likewise never reached.)

Otherwise the pipeline runs; an uncaught exception from it (impossible for
real inputs, see `filter_records_ok`) is modelled as exit 1 with the message
on stderr.  After a successful write (or skipped docx write) the reminder is
printed iff the format is docx and `python-docx` is unavailable, and the
interpreter exits 0. -/
def main (env : Env) (args : Args) : RunResult :=
  if env.inputExists = false then
    ⟨1, ["Traceback (most recent call last): NameError: name 'sys' is not defined"],
     [], false, false⟩
  else
    let recs := parse_lhco env.inputLines
    match filter_records recs args.particle args.columns with
    | .error e => ⟨1, [e], [], false, true⟩
    | .ok recs2 =>
      match args.format with
      | .csv =>
        let w := write_csv recs2 args.output
        match w.err with
        | some e => ⟨1, [e], w.stdout, w.file.isSome, true⟩
        | none => ⟨0, [], w.stdout, w.file.isSome, true⟩
      | .docx =>
        let w := write_docx env.docxAvailable recs2 args.output
        match w.err with
        | some e => ⟨1, [e], w.stdout, w.file.isSome, true⟩
        | none =>
          ⟨0, [],
           w.stdout ++
             (if env.docxAvailable = false then
               ["Reminder: install python-docx via 'pip install python-docx' to enable DOCX output."]
              else []),
           w.file.isSome, true⟩

deriving instance DecidableEq for Except

/-! ## Lemmas about the reader (`parse_lhco`) -/

/-- An empty token list is not a header. -/
theorem empty_not_header : isHeaderToks [] = false := by
  simp [isHeaderToks]

/-- A non-header line leaves the current event id unchanged. -/
theorem updEvent_of_not_header {raw : String} (e : Option String)
    (h : isHeaderToks (pySplit raw) = false) : updEvent e raw = e := by
  simp [updEvent, h]

/-- A header line sets the current event id to its second token. -/
theorem updEvent_of_header {raw : String} (e : Option String)
    (h : isHeaderToks (pySplit raw) = true) :
    updEvent e raw = some ((pySplit raw).getD 1 "") := by
  simp [updEvent, h]

/-- Unfolding `parse_lhco_aux` on an object line (≥ 9 tokens): exactly one
record is emitted and the event id is unchanged for the rest. -/
theorem parse_cons_object (e : Option String) (raw : String) (rest : List String)
    (h : 9 ≤ (pySplit raw).length) :
    parse_lhco_aux e (raw :: rest) = mkObjRec e (pySplit raw) :: parse_lhco_aux e rest := by
  have h0 : (pySplit raw).isEmpty = false := by
    cases hp : pySplit raw with
    | nil => rw [hp] at h; simp at h
    | cons a l => rfl
  have h2 : isHeaderToks (pySplit raw) = false := by
    have h3 : (pySplit raw).length ≠ 3 := by omega
    simp [isHeaderToks, h3]
  rw [parse_lhco_aux]
  simp [h0, h2, h]

/-- Unfolding `parse_lhco_aux` on a valid header line: no record, and the
event id becomes the header's second token. -/
theorem parse_cons_header (e : Option String) (raw : String) (rest : List String)
    (h : isHeaderToks (pySplit raw) = true) :
    parse_lhco_aux e (raw :: rest) =
      parse_lhco_aux (some ((pySplit raw).getD 1 "")) rest := by
  have h0 : (pySplit raw).isEmpty = false := by
    cases hp : pySplit raw with
    | nil => rw [hp] at h; simp [isHeaderToks] at h
    | cons a l => rfl
  rw [parse_lhco_aux]
  simp [h0, h]

/-- Unfolding `parse_lhco_aux` on any other line (0–8 tokens, not a valid
header): no record, event id unchanged. -/
theorem parse_cons_skip (e : Option String) (raw : String) (rest : List String)
    (hlen : (pySplit raw).length ≤ 8)
    (hnh : isHeaderToks (pySplit raw) = false) :
    parse_lhco_aux e (raw :: rest) = parse_lhco_aux e rest := by
  have h9 : ¬ 9 ≤ (pySplit raw).length := by omega
  rw [parse_lhco_aux]
  by_cases h0 : (pySplit raw).isEmpty
  · simp [h0]
  · simp [h0, hnh, h9]

/-- Unfolding `parse_lhco_aux` on a line with no tokens: skipped. -/
theorem parse_cons_blank (e : Option String) (raw : String) (rest : List String)
    (h : (pySplit raw).isEmpty = true) :
    parse_lhco_aux e (raw :: rest) = parse_lhco_aux e rest := by
  rw [parse_lhco_aux]
  simp [h]

/-- Splitting a run of the reader: the records of `pre ++ rest` are the
records of `pre` followed by the records of `rest` parsed with the event id
the lines of `pre` left behind. -/
theorem parse_lhco_aux_append (pre rest : List String) :
    ∀ e, parse_lhco_aux e (pre ++ rest) =
      parse_lhco_aux e pre ++ parse_lhco_aux (pre.foldl updEvent e) rest := by
  induction pre with
  | nil => intro e; simp [parse_lhco_aux]
  | cons raw pre ih =>
    intro e
    rw [List.cons_append, List.foldl_cons]
    by_cases h0 : (pySplit raw).isEmpty = true
    · have hpe : pySplit raw = [] := by
        cases hq : pySplit raw with
        | nil => rfl
        | cons a l => rw [hq] at h0; simp at h0
      have hnh : isHeaderToks (pySplit raw) = false := by rw [hpe]; exact empty_not_header
      rw [parse_cons_blank e raw _ h0, parse_cons_blank e raw pre h0,
          updEvent_of_not_header e hnh]
      exact ih e
    · by_cases hh : isHeaderToks (pySplit raw) = true
      · rw [parse_cons_header e raw _ hh, parse_cons_header e raw pre hh,
            updEvent_of_header e hh]
        exact ih _
      · rw [Bool.not_eq_true] at hh
        by_cases h9 : 9 ≤ (pySplit raw).length
        · rw [parse_cons_object e raw _ h9, parse_cons_object e raw pre h9,
              updEvent_of_not_header e hh, List.cons_append, ih e]
        · have hlen : (pySplit raw).length ≤ 8 := by omega
          rw [parse_cons_skip e raw _ hlen hh, parse_cons_skip e raw pre hlen hh,
              updEvent_of_not_header e hh]
          exact ih e

/-- A run of non-header lines leaves the current event id unchanged. -/
theorem foldl_updEvent_no_header (ls : List String) (e : Option String)
    (h : ∀ l ∈ ls, isHeaderLine l = false) : ls.foldl updEvent e = e := by
  induction ls generalizing e with
  | nil => rfl
  | cons a ls ih =>
    rw [List.foldl_cons, updEvent_of_not_header e (h a (by simp))]
    exact ih e (fun l hl => h l (by simp [hl]))

/-! ## Claims C2, C3, C4 -/

/-- C2: for every input line with at least 9 whitespace-separated tokens
(processed with any current event id `e`), `parse_lhco` emits exactly one
record whose nine fields `idx, typ, eta, phi, pt, jmas, ntrk, btag, hadem`
are the line's first 9 tokens in that fixed order; tokens beyond the 9th are
ignored and no error is raised (the reader is a total function). -/
theorem c2_object_line_first_nine_tokens (e : Option String) (raw : String)
    (rest : List String) (h : 9 ≤ (pySplit raw).length) :
    parse_lhco_aux e (raw :: rest) = mkObjRec e (pySplit raw) :: parse_lhco_aux e rest
    ∧ mkObjRec e (pySplit raw) =
      [("event", e),
       ("idx", some ((pySplit raw).getD 0 "")),
       ("typ", some ((pySplit raw).getD 1 "")),
       ("eta", some ((pySplit raw).getD 2 "")),
       ("phi", some ((pySplit raw).getD 3 "")),
       ("pt", some ((pySplit raw).getD 4 "")),
       ("jmas", some ((pySplit raw).getD 5 "")),
       ("ntrk", some ((pySplit raw).getD 6 "")),
       ("btag", some ((pySplit raw).getD 7 "")),
       ("hadem", some ((pySplit raw).getD 8 ""))] :=
  ⟨parse_cons_object e raw rest h, rfl⟩

/-- Witness for C2 (the spec's concrete object line, which has 10 tokens). -/
theorem c2_object_line_first_nine_tokens_witness :
    parse_lhco_aux (some "77") ["0   2   1.5   0.3   45.2   0   0   0   0   extra"]
      = mkObjRec (some "77") (pySplit "0   2   1.5   0.3   45.2   0   0   0   0   extra")
        :: parse_lhco_aux (some "77") [] :=
  (c2_object_line_first_nine_tokens (some "77")
    "0   2   1.5   0.3   45.2   0   0   0   0   extra" [] (by decide)).1

/-- C3: every record emitted by `parse_lhco` carries as its `event` field
the second token of the most recent preceding valid header line, and `none`
if no header line precedes it; header lines themselves emit no record.
Conjuncts: (1) the record an object line emits is tagged with
`pre.foldl updEvent none`, the event id accumulated over the preceding
lines; (2) a header line emits no record and retags the rest of the file
with its second token; (3) the accumulated id is `none` when no header
precedes; (4) it is the second token of the most recent header otherwise. -/
theorem c3_event_tagging (pre : List String) (raw : String) (suf : List String) :
    (9 ≤ (pySplit raw).length →
      parse_lhco (pre ++ raw :: suf) =
        parse_lhco pre ++ mkObjRec (pre.foldl updEvent none) (pySplit raw)
          :: parse_lhco_aux (pre.foldl updEvent none) suf)
    ∧ (isHeaderLine raw = true →
      parse_lhco (pre ++ raw :: suf) =
        parse_lhco pre ++ parse_lhco_aux (some ((pySplit raw).getD 1 "")) suf)
    ∧ ((∀ l ∈ pre, isHeaderLine l = false) → pre.foldl updEvent none = none)
    ∧ (∀ p1 h p2, pre = p1 ++ h :: p2 → isHeaderLine h = true →
        (∀ l ∈ p2, isHeaderLine l = false) →
        pre.foldl updEvent none = some ((pySplit h).getD 1 "")) := by
  refine ⟨fun h9 => ?_, fun hh => ?_, fun hnone => ?_, fun p1 h p2 hpre hh hrest => ?_⟩
  · rw [parse_lhco, parse_lhco_aux_append pre (raw :: suf) none,
        parse_cons_object _ raw suf h9]
    rfl
  · rw [parse_lhco, parse_lhco_aux_append pre (raw :: suf) none,
        parse_cons_header _ raw suf hh]
    rfl
  · exact foldl_updEvent_no_header pre none hnone
  · rw [hpre, List.foldl_append, List.foldl_cons, updEvent_of_header _ hh]
    exact foldl_updEvent_no_header p2 _ hrest

/-- Witness for C3: a header line `0 77 0` followed by an object line; the
object record is tagged `some "77"`, and the accumulated event id over the
one-header prefix is `some "77"`. -/
theorem c3_event_tagging_witness :
    parse_lhco ["0   77   0", "0   2   1.5   0.3   45.2   0   0   0   0   extra"]
      = parse_lhco ["0   77   0"]
        ++ mkObjRec (List.foldl updEvent none ["0   77   0"])
             (pySplit "0   2   1.5   0.3   45.2   0   0   0   0   extra")
          :: parse_lhco_aux (List.foldl updEvent none ["0   77   0"]) []
    ∧ List.foldl updEvent none ["0   77   0"] = some "77" :=
  ⟨(c3_event_tagging ["0   77   0"] "0   2   1.5   0.3   45.2   0   0   0   0   extra" []).1
      (by decide),
   ((c3_event_tagging ["0   77   0"] "x" []).2.2.2 [] "0   77   0" [] rfl (by decide)
      (fun l hl => absurd hl (by simp))).trans (by decide)⟩

/-- C4: a line with 1 to 8 tokens that is not a valid header line (in
particular every 3-token line whose first token is not purely digits) emits
no record and leaves the current event id unchanged; no error is raised. -/
theorem c4_short_lines_skipped (e : Option String) (raw : String) (rest : List String)
    (h1 : 1 ≤ (pySplit raw).length) (h2 : (pySplit raw).length ≤ 8)
    (h3 : isHeaderToks (pySplit raw) = false) :
    parse_lhco_aux e (raw :: rest) = parse_lhco_aux e rest ∧ updEvent e raw = e :=
  ⟨parse_cons_skip e raw rest h2 h3, updEvent_of_not_header e h3⟩

/-- Witness for C4: the spec's 8-token line `1 6 0 0 0 0 0 0` and, via the
theorem's hypotheses, a 3-token line with a non-digit first token. -/
theorem c4_short_lines_skipped_witness :
    (parse_lhco_aux (some "5") ["1 6 0 0 0 0 0 0"] = parse_lhco_aux (some "5") []
      ∧ updEvent (some "5") "1 6 0 0 0 0 0 0" = some "5")
    ∧ (parse_lhco_aux none ["x 12 0"] = parse_lhco_aux none []
      ∧ updEvent none "x 12 0" = none) :=
  ⟨c4_short_lines_skipped (some "5") "1 6 0 0 0 0 0 0" [] (by decide) (by decide) (by decide),
   c4_short_lines_skipped none "x 12 0" [] (by decide) (by decide) (by decide)⟩

/-! ## Lemmas about the filter/projector (`filter_records`) -/

/-- Inserting a key that is not yet present appends it. -/
theorem dictInsert_fresh (d : Dict) (k : String) (v : PyVal)
    (h : dictHasKey d k = false) : dictInsert d k v = d ++ [(k, v)] := by
  rw [dictInsert, h]
  simp

/-- The projection fold, run from any dict whose keys avoid the (duplicate
free) requested columns, appends the requested columns present in `rec`, in
request order. -/
theorem projectCols_foldl (rec : Dict) :
    ∀ (cols : List String) (d0 : Dict), cols.Nodup →
      (∀ c ∈ cols, dictHasKey d0 c = false) →
      cols.foldl
        (fun d c => if dictHasKey rec c then dictInsert d c (dictGetD rec c none) else d) d0
      = d0 ++ (cols.filter (fun c => dictHasKey rec c)).map
          (fun c => (c, dictGetD rec c none)) := by
  intro cols
  induction cols with
  | nil => intro d0 _ _; simp
  | cons c cs ih =>
    intro d0 hnd hfresh
    rw [List.foldl_cons]
    by_cases hc : dictHasKey rec c = true
    · rw [if_pos hc, dictInsert_fresh _ _ _ (hfresh c (by simp))]
      rw [ih (d0 ++ [(c, dictGetD rec c none)]) hnd.of_cons ?fresh]
      · simp [List.filter_cons, hc]
      case fresh =>
        intro c' hc'
        have hne : ¬ (c = c') := by
          intro he; exact (List.nodup_cons.mp hnd).1 (he ▸ hc')
        have h0 := hfresh c' (by simp [hc'])
        simp [dictHasKey] at h0 ⊢
        exact ⟨h0, hne⟩
    · rw [if_neg hc, ih d0 hnd.of_cons (fun c' h' => hfresh c' (by simp [h']))]
      rw [Bool.not_eq_true] at hc
      simp [List.filter_cons, hc]

/-- `projectCols` on a duplicate-free column list not containing `event`:
the reduced record is `event` first, then the requested columns present in
`rec`, in request order. -/
theorem projectCols_spec (rec : Dict) (cols : List String) (hnd : cols.Nodup)
    (hev : "event" ∉ cols) :
    projectCols rec cols
      = ("event", dictGetD rec "event" none)
        :: (cols.filter (fun c => dictHasKey rec c)).map
             (fun c => (c, dictGetD rec c none)) := by
  rw [projectCols, projectCols_foldl rec cols [("event", dictGetD rec "event" none)] hnd ?fresh]
  · rfl
  case fresh =>
    intro c hc
    have hne : ¬ ("event" = c) := fun he => hev (he ▸ hc)
    simp [dictHasKey, hne]

/-- One step of `filter_records`. -/
theorem filter_records_cons (rec : Dict) (rest : List Dict) (particle : Option String)
    (columns : Option (List String)) :
    filter_records (rec :: rest) particle columns =
      match typCheckRec rec particle with
      | .error e => .error e
      | .ok keep =>
        if keep then
          match projectRec rec columns with
          | .error e => .error e
          | .ok r =>
            match filter_records rest particle columns with
            | .error e => .error e
            | .ok out => .ok (r :: out)
        else filter_records rest particle columns := by
  rw [filter_records.eq_def]

/-- With a particle filter and no column list, `filter_records` is exactly
`List.filter` by string equality of `typ` with the filter value. -/
theorem filter_particle_eq (p : String) :
    ∀ (recs : List Dict), (∀ r ∈ recs, dictHasKey r "typ" = true) →
      filter_records recs (some p) none
        = .ok (recs.filter (fun r => dictGetD r "typ" none == some p)) := by
  intro recs
  induction recs with
  | nil => intro _; rfl
  | cons rec rest ih =>
    intro h
    have htyp : dictHasKey rec "typ" = true := h rec (by simp)
    have ihr := ih (fun r hr => h r (by simp [hr]))
    rw [filter_records_cons]
    simp only [typCheckRec, projectRec, htyp, if_true, List.filter_cons, ihr]
    by_cases hkeep : (dictGetD rec "typ" none == some p) = true
    · simp only [hkeep, if_true]
    · rw [Bool.not_eq_true] at hkeep
      simp only [hkeep, if_false, Bool.false_eq_true]

/-! ## Claims C5, C6, C10 -/

/-- C5: with a particle filter value `p`, `filter_records` retains exactly
the records whose `typ` string-equals `p`, in input order; in particular a
record with `typ = "02"` is dropped by the filter value `"2"`.  (The
hypothesis that every record has a `typ` key holds for all reader output;
without it Python would raise `KeyError`.) -/
theorem c5_particle_filter_string_equality (recs : List Dict) (p : String)
    (h : ∀ r ∈ recs, dictHasKey r "typ" = true) :
    filter_records recs (some p) none
      = .ok (recs.filter (fun r => dictGetD r "typ" none == some p))
    ∧ filter_records [mkObjRec (some "1") (pySplit "0 02 1 2 3 4 5 6 7")] (some "2") none
      = .ok [] :=
  ⟨filter_particle_eq p recs h, by decide⟩

/-- Witness for C5: two records with `typ` `"2"` and `"02"`; only the first
survives the filter `"2"`. -/
theorem c5_particle_filter_string_equality_witness :
    filter_records
        [mkObjRec (some "9") (pySplit "0 2 1 2 3 4 5 6 7"),
         mkObjRec (some "9") (pySplit "1 02 1 2 3 4 5 6 7")] (some "2") none
      = .ok ([mkObjRec (some "9") (pySplit "0 2 1 2 3 4 5 6 7"),
              mkObjRec (some "9") (pySplit "1 02 1 2 3 4 5 6 7")].filter
          (fun r => dictGetD r "typ" none == some "2")) :=
  (c5_particle_filter_string_equality
    [mkObjRec (some "9") (pySplit "0 2 1 2 3 4 5 6 7"),
     mkObjRec (some "9") (pySplit "1 02 1 2 3 4 5 6 7")] "2" (by decide)).1

/-- C6 as stated is false: a duplicated requested column appears only once
in the reduced record (a Python dict cannot hold a key twice).  Requesting
`["pt", "pt"]` yields the keys `event, pt`, not `event, pt, pt` as the
claim's "event first, then exactly the requested columns that exist among
the record's fields, in the requested order" demands. -/
theorem c6_counterexample :
    filter_records [mkObjRec (some "77") (pySplit "0 2 1.5 0.3 45.2 0 0 0 0")]
        none (some ["pt", "pt"])
      = .ok [[("event", some "77"), ("pt", some "45.2")]]
    ∧ dictKeys [("event", some "77"), ("pt", some "45.2")] = ["event", "pt"]
    ∧ ["event", "pt"] ≠ ["event", "pt", "pt"] :=
  ⟨by decide, rfl, by decide⟩

/-- C6 amended: for every record sequence and every non-empty,
duplicate-free requested column list not containing `event`, each retained
record is reduced to `event` first, then exactly the requested columns
present among the record's fields, in the requested order, unknown names
silently ignored; so requesting `["pt", "eta", "nonexistent"]` yields keys
`event, pt, eta`.  (Requesting a duplicate column, or `event` itself,
collapses into the already-present key instead of repeating it.) -/
theorem c6_amended_column_projection (recs : List Dict) (particle : Option String)
    (cols : List String) (h1 : cols ≠ []) (h2 : cols.Nodup) (h3 : "event" ∉ cols)
    (h4 : ∀ r ∈ recs, dictHasKey r "typ" = true ∧ dictHasKey r "event" = true) :
    filter_records recs particle (some cols)
      = .ok ((recs.filter (fun r => keepByParticle r particle)).map
          (fun r => ("event", dictGetD r "event" none)
            :: (cols.filter (fun c => dictHasKey r c)).map
                 (fun c => (c, dictGetD r c none))))
    ∧ (∀ r : Dict, dictKeys (projectCols r cols)
        = "event" :: cols.filter (fun c => dictHasKey r c)) := by
  have hempty : cols.isEmpty = false := by
    cases cols with
    | nil => exact absurd rfl h1
    | cons a l => rfl
  refine ⟨?_, ?_⟩
  · induction recs with
    | nil => rfl
    | cons rec rest ih =>
      have htyp : dictHasKey rec "typ" = true := (h4 rec (by simp)).1
      have hev : dictHasKey rec "event" = true := (h4 rec (by simp)).2
      have ihr := ih (fun r hr => h4 r (by simp [hr]))
      rw [filter_records_cons]
      cases particle with
      | none =>
        simp only [typCheckRec, projectRec, hempty, hev, if_true, if_false,
          Bool.false_eq_true, ihr, List.filter_cons, keepByParticle]
        rw [projectCols_spec rec cols h2 h3]
        simp
      | some p =>
        simp only [typCheckRec, projectRec, htyp, if_true]
        by_cases hkeep : (dictGetD rec "typ" none == some p) = true
        · simp only [hkeep, if_true, hempty, Bool.false_eq_true, if_false, hev, ihr,
            List.filter_cons, keepByParticle]
          rw [projectCols_spec rec cols h2 h3]
          simp
        · rw [Bool.not_eq_true] at hkeep
          simp only [hkeep, if_false, Bool.false_eq_true, ihr, List.filter_cons, keepByParticle]
  · intro r
    rw [projectCols_spec r cols h2 h3]
    simp only [dictKeys, List.map_cons, List.map_map]
    have hcomp : ((fun x : String × PyVal => x.1) ∘ fun c : String => (c, dictGetD r c none))
        = id := funext (fun c => rfl)
    rw [hcomp, List.map_id]

/-- Witness for C6 (amended): the claim's example columns
`["pt", "eta", "nonexistent"]` on one parsed record give the keys
`event, pt, eta`. -/
theorem c6_amended_column_projection_witness :
    filter_records [mkObjRec (some "77") (pySplit "0 2 1.5 0.3 45.2 0 0 0 0")]
        none (some ["pt", "eta", "nonexistent"])
      = .ok ([[("event", some "77"), ("pt", some "45.2"), ("eta", some "1.5")]])
    ∧ dictKeys [("event", some "77"), ("pt", some "45.2"), ("eta", some "1.5")]
      = ["event", "pt", "eta"] := by
  have h := (c6_amended_column_projection
    [mkObjRec (some "77") (pySplit "0 2 1.5 0.3 45.2 0 0 0 0")] none
    ["pt", "eta", "nonexistent"] (by decide) (by decide) (by decide) (by decide)).1
  refine ⟨h.trans (by decide), by decide⟩

/-- C10: an empty requested column list behaves exactly like no column list
(`if columns:` is false for both): with no particle filter every record
passes through unchanged, all fields kept. -/
theorem c10_empty_columns_like_none (recs : List Dict) :
    (∀ particle, filter_records recs particle (some [])
      = filter_records recs particle none)
    ∧ filter_records recs none (some []) = .ok recs := by
  constructor
  · intro particle
    induction recs with
    | nil => rfl
    | cons rec rest ih =>
      rw [filter_records_cons, filter_records_cons, ih]
      rfl
  · induction recs with
    | nil => rfl
    | cons rec rest ih =>
      rw [filter_records_cons, ih]
      rfl

/-! ## Lemmas about the writers and `main` -/

/-- Every record the reader emits has the `typ` and `event` keys (it is a
`mkObjRec`, which has all ten keys). -/
theorem parse_records_have_keys (lines : List String) :
    ∀ (e : Option String), ∀ r ∈ parse_lhco_aux e lines,
      dictHasKey r "typ" = true ∧ dictHasKey r "event" = true := by
  induction lines with
  | nil => intro e r hr; simp [parse_lhco_aux] at hr
  | cons raw rest ih =>
    intro e r hr
    by_cases h0 : (pySplit raw).isEmpty = true
    · rw [parse_cons_blank e raw rest h0] at hr
      exact ih e r hr
    · by_cases hh : isHeaderToks (pySplit raw) = true
      · rw [parse_cons_header e raw rest hh] at hr
        exact ih _ r hr
      · rw [Bool.not_eq_true] at hh
        by_cases h9 : 9 ≤ (pySplit raw).length
        · rw [parse_cons_object e raw rest h9] at hr
          rcases List.mem_cons.mp hr with hEq | hmem
          · subst hEq
            exact ⟨rfl, rfl⟩
          · exact ih e r hmem
        · have hlen : (pySplit raw).length ≤ 8 := by omega
          rw [parse_cons_skip e raw rest hlen hh] at hr
          exact ih e r hr

/-- On records that all carry the `typ` and `event` keys — in particular on
any reader output — `filter_records` never raises. -/
theorem filter_records_ok (recs : List Dict) (particle : Option String)
    (columns : Option (List String))
    (h : ∀ r ∈ recs, dictHasKey r "typ" = true ∧ dictHasKey r "event" = true) :
    ∃ out, filter_records recs particle columns = .ok out := by
  induction recs with
  | nil => exact ⟨[], rfl⟩
  | cons rec rest ih =>
    obtain ⟨out, hout⟩ := ih (fun r hr => h r (by simp [hr]))
    have htyp := (h rec (by simp)).1
    have hev := (h rec (by simp)).2
    have htc : ∃ b, typCheckRec rec particle = .ok b := by
      cases particle with
      | none => exact ⟨true, rfl⟩
      | some p =>
        exact ⟨dictGetD rec "typ" none == some p, by simp [typCheckRec, htyp]⟩
    obtain ⟨b, hb⟩ := htc
    have hpr : ∃ r2, projectRec rec columns = .ok r2 := by
      cases columns with
      | none => exact ⟨rec, rfl⟩
      | some cols =>
        by_cases hc : cols.isEmpty = true
        · exact ⟨rec, by simp [projectRec, hc]⟩
        · exact ⟨projectCols rec cols, by simp [projectRec, hc, hev]⟩
    obtain ⟨r2, hr2⟩ := hpr
    rw [filter_records_cons, hb, hr2, hout]
    cases b
    · exact ⟨out, by simp⟩
    · exact ⟨r2 :: out, by simp⟩

/-! ## Claims C7 (corrected), C8, C1 -/

/-- C7 as stated is false in an environment without `python-docx`:
`write_docx` checks `DOCX_AVAILABLE` before the empty-records check and
prints the capability message, not a "no records" message, on an empty
record sequence. -/
theorem c7_counterexample :
    (write_docx false [] "out.docx").stdout
      = ["Error: python-docx is not installed. Cannot write DOCX."]
    ∧ (write_docx false [] "out.docx").stdout ≠ ["No records to write."] :=
  ⟨rfl, by decide⟩

/-- C7 amended: on an empty record sequence neither writer opens or writes
any file and neither raises; `write_csv` prints the "no records" message,
and so does `write_docx` when the docx capability is available — when it is
unavailable `write_docx` instead prints the capability message (still no
write, no exception). -/
theorem c7_amended_empty_input_writers (outPath : String) :
    write_csv [] outPath = ⟨none, ["No records to write."], none⟩
    ∧ write_docx true [] outPath = ⟨none, ["No records to write."], none⟩
    ∧ write_docx false [] outPath
      = ⟨none, ["Error: python-docx is not installed. Cannot write DOCX."], none⟩ :=
  ⟨rfl, rfl, rfl⟩

/-- C8: with an existing input, format docx and `python-docx` unavailable,
the program writes no output file, prints the capability message and then
the install reminder to standard output, prints nothing to the error
stream, and exits with code 0. -/
theorem c8_docx_unavailable_nonfatal (env : Env) (args : Args)
    (h1 : env.inputExists = true) (h2 : env.docxAvailable = false)
    (h3 : args.format = .docx) :
    main env args =
      ⟨0, [],
       ["Error: python-docx is not installed. Cannot write DOCX.",
        "Reminder: install python-docx via 'pip install python-docx' to enable DOCX output."],
       false, true⟩ := by
  obtain ⟨out, hout⟩ := filter_records_ok (parse_lhco env.inputLines) args.particle
    args.columns (parse_records_have_keys env.inputLines none)
  simp [main, h1, h2, h3, hout, write_docx]

/-- Witness for C8: a concrete run over a two-line file. -/
theorem c8_docx_unavailable_nonfatal_witness :
    main ⟨true, ["0 77 0", "0 2 1 2 3 4 5 6 7"], false⟩
        ⟨"in.lhco", "out.docx", .docx, none, none⟩ =
      ⟨0, [],
       ["Error: python-docx is not installed. Cannot write DOCX.",
        "Reminder: install python-docx via 'pip install python-docx' to enable DOCX output."],
       false, true⟩ :=
  c8_docx_unavailable_nonfatal _ _ rfl rfl rfl

/-- C1: when the input path does not exist the program exits with a
non-zero exit code (1), prints an error message to the error stream, and
performs no parsing and no writing.  In the source this happens through an
uncaught `NameError` — line 113 uses `sys.stderr` but `sys` is never
imported — so the interpreter prints a traceback to stderr and exits with
status 1; the intended "Input file ... not found." message is never
printed, but the claimed observable behavior (non-zero exit, error text on
stderr, no parsing, no writing) holds. -/
theorem c1_missing_input_fatal (env : Env) (args : Args)
    (h : env.inputExists = false) :
    main env args =
      ⟨1, ["Traceback (most recent call last): NameError: name 'sys' is not defined"],
       [], false, false⟩
    ∧ (main env args).exitCode ≠ 0
    ∧ (main env args).stderrOut ≠ []
    ∧ (main env args).parsedInput = false
    ∧ (main env args).fileWritten = false := by
  have hm : main env args =
      ⟨1, ["Traceback (most recent call last): NameError: name 'sys' is not defined"],
       [], false, false⟩ := by
    simp [main, h]
  exact ⟨hm, by rw [hm]; decide, by rw [hm]; decide, by rw [hm], by rw [hm]⟩

/-- Witness for C1: a concrete run with a missing input path. -/
theorem c1_missing_input_fatal_witness :
    main ⟨false, [], true⟩ ⟨"absent.lhco", "out.csv", .csv, none, none⟩ =
      ⟨1, ["Traceback (most recent call last): NameError: name 'sys' is not defined"],
       [], false, false⟩ :=
  (c1_missing_input_fatal ⟨false, [], true⟩ ⟨"absent.lhco", "out.csv", .csv, none, none⟩ rfl).1

/-! ## The CSV round trip (claim C9) -/

/-- Rebuilding a string from its character list is the identity. -/
theorem string_mk_data (s : String) : String.mk s.data = s := rfl

theorem quote_ne_comma : ¬ (quoteChar = ',') := by decide

theorem quote_ne_cr : ¬ (quoteChar = '\r') := by decide

theorem quote_ne_lf : ¬ (quoteChar = '\n') := by decide

theorem comma_ne_quote : ¬ ((',' : Char) = quoteChar) := by decide

theorem cr_ne_quote : ¬ (('\r' : Char) = quoteChar) := by decide

theorem cr_ne_comma : ¬ (('\r' : Char) = ',') := by decide

/-- Unfolding `rowAux` on empty input. -/
theorem rowAux_nil (m : CsvMode) (acc : List Char) :
    rowAux [] m acc = ([String.mk acc], []) := by
  rw [rowAux.eq_def]

/-- Unfolding `rowAux` in quoted mode. -/
theorem rowAux_cons_quoted (c : Char) (rest acc : List Char) :
    rowAux (c :: rest) CsvMode.quoted acc =
      if c = quoteChar then rowAux rest CsvMode.closing acc
      else rowAux rest CsvMode.quoted (acc ++ [c]) := by
  rw [rowAux.eq_def]

/-- Unfolding `rowAux` in closing mode. -/
theorem rowAux_cons_closing (c : Char) (rest acc : List Char) :
    rowAux (c :: rest) CsvMode.closing acc =
      if c = quoteChar then rowAux rest CsvMode.quoted (acc ++ [quoteChar])
      else if c = ',' then
        let q := rowAux rest CsvMode.plain []
        (String.mk acc :: q.1, q.2)
      else if c = '\r' then
        match rest with
        | c2 :: rest2 =>
          if c2 = '\n' then ([String.mk acc], rest2) else ([String.mk acc], c :: rest)
        | [] => ([String.mk acc], [c])
      else if c = '\n' then ([String.mk acc], rest)
      else rowAux rest CsvMode.plain (acc ++ [c]) := by
  rw [rowAux.eq_def]

/-- Unfolding `rowAux` in plain mode. -/
theorem rowAux_cons_plain (c : Char) (rest acc : List Char) :
    rowAux (c :: rest) CsvMode.plain acc =
      if c = ',' then
        let q := rowAux rest CsvMode.plain []
        (String.mk acc :: q.1, q.2)
      else if c = '\r' then
        match rest with
        | c2 :: rest2 =>
          if c2 = '\n' then ([String.mk acc], rest2) else ([String.mk acc], c :: rest)
        | [] => ([String.mk acc], [c])
      else if c = '\n' then ([String.mk acc], rest)
      else if c = quoteChar then rowAux rest CsvMode.quoted acc
      else rowAux rest CsvMode.plain (acc ++ [c]) := by
  rw [rowAux.eq_def]

theorem doubleQuotes_q (cs : List Char) :
    doubleQuotes (quoteChar :: cs) = quoteChar :: quoteChar :: doubleQuotes cs := by
  simp [doubleQuotes]

theorem doubleQuotes_other (c : Char) (cs : List Char) (h : ¬ (c = quoteChar)) :
    doubleQuotes (c :: cs) = c :: doubleQuotes cs := by
  simp [doubleQuotes, h]

/-- A field that needs no quoting has no separator, quote, CR or LF. -/
theorem needsQuote_false_clean {s : List Char} (h : needsQuote s = false) :
    ∀ c ∈ s, ¬(c = ',') ∧ ¬(c = quoteChar) ∧ ¬(c = '\r') ∧ ¬(c = '\n') := by
  intro c hc
  simp only [needsQuote, List.any_eq_false] at h
  have h2 := h c hc
  simp only [Bool.or_eq_true, beq_iff_eq] at h2
  tauto

/-- Reading clean characters in plain mode just accumulates them. -/
theorem rowAux_clean (s : List Char)
    (hs : ∀ c ∈ s, ¬(c = ',') ∧ ¬(c = quoteChar) ∧ ¬(c = '\r') ∧ ¬(c = '\n')) :
    ∀ (acc rest' : List Char),
      rowAux (s ++ rest') CsvMode.plain acc = rowAux rest' CsvMode.plain (acc ++ s) := by
  induction s with
  | nil => intro acc rest'; simp
  | cons a s ih =>
    intro acc rest'
    obtain ⟨h1, h2, h3, h4⟩ := hs a (by simp)
    rw [List.cons_append, rowAux_cons_plain]
    simp only [h1, h2, h3, h4, if_false]
    rw [ih (fun c hc => hs c (by simp [hc])) (acc ++ [a]) rest']
    simp

/-- Reading a doubled field body in quoted mode accumulates the original
characters and ends, at the closing quote, in closing mode. -/
theorem rowAux_quoted (s : List Char) :
    ∀ (acc rest' : List Char), (rest' = [] ∨ ∃ c r, rest' = c :: r ∧ ¬(c = quoteChar)) →
      rowAux (doubleQuotes s ++ quoteChar :: rest') CsvMode.quoted acc
        = rowAux rest' CsvMode.closing (acc ++ s) := by
  induction s with
  | nil =>
    intro acc rest' hrest
    rw [doubleQuotes, List.nil_append, rowAux_cons_quoted, if_pos rfl]
    rcases hrest with h | ⟨c, r, hr, hc⟩
    · subst h
      rw [rowAux_nil, rowAux_nil]
      simp
    · subst hr
      rw [rowAux_cons_closing, rowAux_cons_closing]
      simp only [hc, if_false]
      simp
  | cons a s ih =>
    intro acc rest' hrest
    by_cases ha : a = quoteChar
    · subst ha
      rw [doubleQuotes_q, List.cons_append, List.cons_append,
          rowAux_cons_quoted, if_pos rfl, rowAux_cons_closing, if_pos rfl,
          ih (acc ++ [quoteChar]) rest' hrest]
      simp
    · rw [doubleQuotes_other a s ha, List.cons_append, rowAux_cons_quoted]
      simp only [ha, if_false]
      rw [ih (acc ++ [a]) rest' hrest]
      simp

/-- An encoded field followed by a comma: the reader recovers the field and
continues with the next field. -/
theorem rowAux_field_sep (s T : List Char) :
    rowAux (encodeField s ++ ',' :: T) CsvMode.plain []
      = (String.mk s :: (rowAux T CsvMode.plain []).1, (rowAux T CsvMode.plain []).2) := by
  by_cases hq : needsQuote s = true
  · rw [encodeField, if_pos hq, List.cons_append, List.append_assoc,
        List.singleton_append, rowAux_cons_plain]
    simp only [quote_ne_comma, quote_ne_cr, quote_ne_lf, if_false, if_pos rfl]
    rw [rowAux_quoted s [] (',' :: T) (Or.inr ⟨',', T, rfl, by decide⟩),
        rowAux_cons_closing]
    simp [comma_ne_quote]
  · rw [Bool.not_eq_true] at hq
    rw [encodeField, if_neg (by simp [hq]),
        rowAux_clean s (needsQuote_false_clean hq) [] (',' :: T),
        rowAux_cons_plain, if_pos rfl]
    simp

/-- An encoded field followed by CRLF: the reader recovers the field and
ends the row. -/
theorem rowAux_field_end (s T : List Char) :
    rowAux (encodeField s ++ '\r' :: '\n' :: T) CsvMode.plain [] = ([String.mk s], T) := by
  by_cases hq : needsQuote s = true
  · rw [encodeField, if_pos hq, List.cons_append, List.append_assoc,
        List.singleton_append, rowAux_cons_plain]
    simp only [quote_ne_comma, quote_ne_cr, quote_ne_lf, if_false, if_pos rfl]
    rw [rowAux_quoted s [] ('\r' :: '\n' :: T) (Or.inr ⟨'\r', '\n' :: T, rfl, by decide⟩),
        rowAux_cons_closing]
    simp [cr_ne_quote, cr_ne_comma]
  · rw [Bool.not_eq_true] at hq
    rw [encodeField, if_neg (by simp [hq]),
        rowAux_clean s (needsQuote_false_clean hq) [] ('\r' :: '\n' :: T),
        rowAux_cons_plain]
    simp [cr_ne_comma]

theorem joinFields_single (f : String) : joinFieldsChars [f] = encodeField f.data := by
  rw [joinFieldsChars.eq_def]

theorem joinFields_cons2 (f f2 : String) (fs : List String) :
    joinFieldsChars (f :: f2 :: fs) = encodeField f.data ++ ',' :: joinFieldsChars (f2 :: fs) := by
  rw [joinFieldsChars.eq_def]

/-- The reader inverts the row encoder (for a non-empty field list),
leaving the input after the CRLF terminator. -/
theorem parseRow_join : ∀ (fields : List String), fields ≠ [] → ∀ (rest : List Char),
    parseRow (joinFieldsChars fields ++ '\r' :: '\n' :: rest) = (fields, rest) := by
  intro fields
  induction fields with
  | nil => intro h; exact absurd rfl h
  | cons f fs ih =>
    intro _ rest
    cases fs with
    | nil =>
      rw [joinFields_single, parseRow, rowAux_field_end, string_mk_data]
    | cons f2 fs2 =>
      rw [joinFields_cons2, parseRow, List.append_assoc, List.cons_append,
          rowAux_field_sep]
      have ih2 := ih (by simp) rest
      rw [parseRow] at ih2
      rw [ih2, string_mk_data]

theorem encodeRowChars_nil : encodeRowChars [] = ['\r', '\n'] := rfl

theorem encodeRowChars_single_empty :
    encodeRowChars [""] = [quoteChar, quoteChar, '\r', '\n'] := rfl

theorem encodeRowChars_general {fields : List String} (h : fields ≠ [""]) :
    encodeRowChars fields = joinFieldsChars fields ++ ['\r', '\n'] := by
  rw [encodeRowChars, if_neg h]

/-- The first character of an encoded field (or, if the field is empty and
unquoted, of what follows) is never a CR or LF. -/
theorem encodeField_head (s R : List Char)
    (h : s ≠ [] ∨ ∃ c R0, R = c :: R0 ∧ ¬(c = '\r') ∧ ¬(c = '\n')) :
    ∃ x t, encodeField s ++ R = x :: t ∧ ¬(x = '\r') ∧ ¬(x = '\n') := by
  by_cases hq : needsQuote s = true
  · refine ⟨quoteChar, (doubleQuotes s ++ [quoteChar]) ++ R, ?_, quote_ne_cr, quote_ne_lf⟩
    rw [encodeField, if_pos hq, List.cons_append]
  · rw [Bool.not_eq_true] at hq
    rw [encodeField, if_neg (by simp [hq])]
    cases s with
    | nil =>
      rcases h with h | ⟨c, R0, hR, hc1, hc2⟩
      · exact absurd rfl h
      · exact ⟨c, R0, by rw [hR, List.nil_append], hc1, hc2⟩
    | cons a d =>
      obtain ⟨_, _, h3, h4⟩ := needsQuote_false_clean hq a (by simp)
      exact ⟨a, d ++ R, by rw [List.cons_append], h3, h4⟩

/-- `f.data = []` only for the empty string. -/
theorem data_nil_imp (f : String) (h : f.data = []) : f = "" := by
  have := string_mk_data f
  rw [h] at this
  exact this.symm.trans rfl

/-- The first character of an encoded non-degenerate row is never CR/LF
(so the rows parser dispatches it to the row parser). -/
theorem joinFields_head (f : String) (fs : List String) (R : List Char)
    (h : ¬ (f :: fs = ([""] : List String))) :
    ∃ x t, joinFieldsChars (f :: fs) ++ R = x :: t ∧ ¬(x = '\r') ∧ ¬(x = '\n') := by
  cases fs with
  | nil =>
    have hf : f ≠ "" := fun he => h (by rw [he])
    have hd : f.data ≠ [] := fun he => hf (data_nil_imp f he)
    rw [joinFields_single]
    exact encodeField_head f.data R (Or.inl hd)
  | cons f2 fs2 =>
    rw [joinFields_cons2, List.append_assoc, List.cons_append]
    exact encodeField_head f.data (',' :: (joinFieldsChars (f2 :: fs2) ++ R))
      (Or.inr ⟨',', _, rfl, by decide, by decide⟩)

theorem parseRowsF_nil (n : Nat) : parseRowsF n [] = [] := by
  cases n with
  | zero => rfl
  | succ m => rfl

theorem parseRowsF_succ_cons (n : Nat) (c : Char) (rest : List Char) :
    parseRowsF (n + 1) (c :: rest) =
      if c = '\r' ∧ rest.head? = some '\n' then [] :: parseRowsF n rest.tail
      else if c = '\n' then [] :: parseRowsF n rest
      else (parseRow (c :: rest)).1 :: parseRowsF n (parseRow (c :: rest)).2 := by
  rw [parseRowsF.eq_def]

/-- Peeling one encoded row off the front of the input. -/
theorem parseRowsF_peel (n : Nat) (fields : List String) (rest : List Char) :
    parseRowsF (n + 1) (encodeRowChars fields ++ rest) = fields :: parseRowsF n rest := by
  by_cases h0 : fields = []
  · subst h0
    rw [encodeRowChars_nil, List.cons_append, List.cons_append, List.nil_append,
        parseRowsF_succ_cons, if_pos ⟨rfl, rfl⟩]
    rfl
  · by_cases h1 : fields = [""]
    · subst h1
      rw [encodeRowChars_single_empty]
      have hshape : ([quoteChar, quoteChar, '\r', '\n'] : List Char) ++ rest
          = quoteChar :: quoteChar :: '\r' :: '\n' :: rest := rfl
      rw [hshape, parseRowsF_succ_cons,
          if_neg (by intro hx; exact quote_ne_cr hx.1), if_neg quote_ne_lf]
      have hrow : parseRow (quoteChar :: quoteChar :: '\r' :: '\n' :: rest)
          = ([""], rest) := by
        rw [parseRow, rowAux_cons_plain]
        simp only [quote_ne_comma, quote_ne_cr, quote_ne_lf, if_false, if_pos rfl]
        rw [rowAux_cons_quoted, if_pos rfl, rowAux_cons_closing]
        simp [cr_ne_quote, cr_ne_comma]
      rw [hrow]
    · obtain ⟨f, fs, rfl⟩ : ∃ f fs, fields = f :: fs := by
        cases fields with
        | nil => exact absurd rfl h0
        | cons f fs => exact ⟨f, fs, rfl⟩
      rw [encodeRowChars_general h1, List.append_assoc]
      have hshape : (['\r', '\n'] : List Char) ++ rest = '\r' :: '\n' :: rest := rfl
      rw [hshape]
      obtain ⟨x, t, hxt, hx1, hx2⟩ := joinFields_head f fs ('\r' :: '\n' :: rest) h1
      have hrow := parseRow_join (f :: fs) h0 rest
      rw [hxt, parseRowsF_succ_cons, if_neg (by intro hx; exact hx1 hx.1), if_neg hx2,
          ← hxt, hrow]

theorem encodeRows_cons (r : List String) (rs : List (List String)) :
    encodeRows (r :: rs) = encodeRowChars r ++ encodeRows rs := by
  rw [encodeRows.eq_def]

/-- An encoded row is never empty (it ends with its terminator). -/
theorem encodeRowChars_len_pos (fields : List String) :
    1 ≤ (encodeRowChars fields).length := by
  by_cases h : fields = [""]
  · subst h; rw [encodeRowChars_single_empty]; simp
  · rw [encodeRowChars_general h]; simp

theorem encodeRows_length_ge (rows : List (List String)) :
    rows.length ≤ (encodeRows rows).length := by
  induction rows with
  | nil => simp [encodeRows]
  | cons r rs ih =>
    rw [encodeRows_cons]
    have := encodeRowChars_len_pos r
    simp only [List.length_cons, List.length_append]
    omega

/-- With enough fuel the rows parser inverts the rows encoder. -/
theorem parseRowsF_encodeRows : ∀ (rows : List (List String)) (n : Nat),
    rows.length ≤ n → parseRowsF n (encodeRows rows) = rows := by
  intro rows
  induction rows with
  | nil => intro n _; rw [show encodeRows [] = [] from rfl, parseRowsF_nil]
  | cons r rs ih =>
    intro n hn
    cases n with
    | zero => simp at hn
    | succ m =>
      rw [encodeRows_cons, parseRowsF_peel, ih m (by simp at hn; omega)]

/-- The CSV reader inverts the CSV encoder. -/
theorem parseRows_encodeRows (rows : List (List String)) :
    parseRows (encodeRows rows) = rows := by
  rw [parseRows]
  exact parseRowsF_encodeRows rows _ (le_trans (encodeRows_length_ge rows) (Nat.le_succ _))

/-- `takeWhile` keeps everything when the predicate holds everywhere. -/
theorem takeWhile_all {α : Type} (p : α → Bool) :
    ∀ (l : List α), (∀ a ∈ l, p a = true) → l.takeWhile p = l := by
  intro l
  induction l with
  | nil => intro _; rfl
  | cons a l ih =>
    intro h
    rw [List.takeWhile_cons, if_pos (h a (by simp)), ih (fun b hb => h b (by simp [hb]))]

/-- C9: for every non-empty homogeneous record sequence (same keys in the
same order as the first record), `write_csv` writes — without raising — the
file `csvContent fieldnames recs`, and parsing that content back as CSV
yields one header row equal to the first record's key order followed by
exactly N data rows, in sequence order (row r holds r's values in fieldname
order, `None` written as the empty string). -/
theorem c9_csv_round_trip (recs : List Dict) (outPath : String)
    (h1 : recs ≠ [])
    (h2 : ∀ r ∈ recs, dictKeys r = dictKeys (recs.headD [])) :
    write_csv recs outPath
      = ⟨some (csvContent (dictKeys (recs.headD [])) recs),
         ["CSV written to " ++ outPath], none⟩
    ∧ parseRows (csvContent (dictKeys (recs.headD [])) recs)
      = dictKeys (recs.headD []) :: recs.map (csvRowOf (dictKeys (recs.headD [])))
    ∧ (parseRows (csvContent (dictKeys (recs.headD [])) recs)).length
      = recs.length + 1 := by
  have hgood : ∀ r ∈ recs, (r.all fun p => (dictKeys (recs.headD [])).contains p.1) = true := by
    intro r hr
    rw [List.all_eq_true]
    intro p hp
    have hmem : p.1 ∈ dictKeys r := by
      rw [dictKeys]
      exact List.mem_map.mpr ⟨p, hp, rfl⟩
    rw [h2 r hr] at hmem
    exact List.elem_eq_true_of_mem hmem
  have htw := takeWhile_all _ recs hgood
  have hwc : write_csv recs outPath
      = ⟨some (csvContent (dictKeys (recs.headD [])) recs),
         ["CSV written to " ++ outPath], none⟩ := by
    simp only [write_csv, htw]
    rw [if_neg h1]
    simp
  have hrt : parseRows (csvContent (dictKeys (recs.headD [])) recs)
      = dictKeys (recs.headD []) :: recs.map (csvRowOf (dictKeys (recs.headD []))) := by
    rw [csvContent]
    exact parseRows_encodeRows _
  exact ⟨hwc, hrt, by rw [hrt]; simp⟩

/-- Witness for C9: two homogeneous records, a `None` event value and a
field containing the delimiter. -/
theorem c9_csv_round_trip_witness :
    write_csv recsW "out.csv"
      = ⟨some (csvContent (dictKeys (recsW.headD [])) recsW),
         ["CSV written to " ++ "out.csv"], none⟩
    ∧ parseRows (csvContent (dictKeys (recsW.headD [])) recsW)
      = dictKeys (recsW.headD []) :: recsW.map (csvRowOf (dictKeys (recsW.headD []))) :=
  ⟨(c9_csv_round_trip recsW "out.csv" (by decide) (by decide)).1,
   (c9_csv_round_trip recsW "out.csv" (by decide) (by decide)).2.1⟩

end LhcoConv
